import Mathlib

/-!
Verification of the Boost.MMM sources (scheduler.hpp, detail/async_io_thread.hpp,
io/detail/poll.hpp) against their natural-language specification.

The reactor (async_io_thread) is embedded as a state of its three side-by-side
containers; the scheduler as a record of its flags, pool and worker table.
Operations additionally emit a trace of observable events (lock, notify, push,
TLS writes) so that the notification and TLS disciplines can be stated.
-/

namespace BoostMMM

/-- A pollfd record (io/detail/poll.hpp): file descriptor, requested events,
returned events. -/
structure Pollfd where
  fd : Int
  events : Int
  revents : Int
deriving DecidableEq, Repr

/-- polling_events::in, the readable-event flag (POLLIN). -/
def polling_events_in : Int := 1

/-- Contexts are moved by value between the reactor and the strategy pool; the
reactor model only needs their identity. -/
abbrev Ctx := Nat

/-- Stable identity of a node of the container::list `_m_ctxact`. List
iterators stay valid while other nodes are erased, which plain indices would
not model, so an iterator is embedded as the id of the node it points to. -/
abbrev NodeId := Nat

/-- State of async_io_thread: the three side-by-side containers `_m_pfds`
(descriptor records), `_m_ctxitr` (iterators into the parked list; `none`
models the default-constructed, singular iterator stored at index 0) and
`_m_ctxact` (the parked-context list, each node carrying its id). -/
structure ReactorState where
  pfds : List Pollfd
  ctxitr : List (Option NodeId)
  ctxact : List (NodeId × Ctx)
deriving DecidableEq, Repr

/-- check_event::operator(): true iff the pollfd component of the zipped entry
has a non-zero returned-events field. -/
def check_event (e : Pollfd × Option NodeId) : Bool :=
  e.1.revents != 0

/-- std::partition: reorders the range so that the elements satisfying the
predicate precede the rest, and splits at the returned iterator. The C++
standard fixes only this split (the relative order inside each group is
unspecified); the model realizes it by filtering, one conforming behavior. -/
def stdPartition {α : Type} (p : α → Bool) (l : List α) : List α × List α :=
  (l.filter p, l.filter fun x => !p x)

/-- Observable actions on the shared scheduler state: mutex operations,
condition-variable operations, strategy-pool operations, context operations,
writes of the thread-local current-context slot, flag writes and thread
joins. -/
inductive Event
  | lock
  | unlock
  | notifyOne
  | notifyAll
  | waitCV
  | pushCtx (c : Ctx)
  | popCtx (c : Ctx)
  | startCtx (c : Ctx)
  | resumeCtx (c : Ctx)
  | setTLS (c : Ctx)
  | clearTLS
  | setJoinFlag (b : Bool)
  | setTerminateFlag
  | joinWorker (k : Nat)
deriving DecidableEq, Repr

/-- Dereference a `_m_ctxact` iterator: the context stored at the node with
the given id, if the node is live. -/
def derefNode (l : List (NodeId × Ctx)) (n : NodeId) : Option Ctx :=
  (l.find? fun e => e.1 == n).map Prod.snd

/-- ctxact_vector::erase of the node an iterator points to. -/
def eraseNode (l : List (NodeId × Ctx)) (n : NodeId) : List (NodeId × Ctx) :=
  l.eraseP fun e => e.1 == n

/-- The erase loop of restore_and_erase: std::for_each erasing, one by one,
the `_m_ctxact` node each iterator of the range points to (a singular
iterator, impossible in reachable states, erases nothing). -/
def eraseAll (A : List (NodeId × Ctx)) (range : List (Pollfd × Option NodeId)) :
    List (NodeId × Ctx) :=
  range.foldl
    (fun a e => match e.2 with
      | some n => eraseNode a n
      | none => a)
    A

/-- async_io_thread::restore_and_erase over the zipped range [itr, end), here
given as `range`; `keep` is the rest of the partitioned tail and `p0`, `it0`
the untouched entries at index 0. Under the scheduler lock, std::for_each
pushes the context every iterator of the range points to into the strategy
pool (push_ctx); then each pointed-to node is erased from `_m_ctxact` and the
range itself from `_m_pfds` and `_m_ctxitr`. No condition-variable
notification is performed. -/
def restore_and_erase (s : ReactorState) (p0 : Pollfd) (it0 : Option NodeId)
    (keep range : List (Pollfd × Option NodeId)) : ReactorState × List Event :=
  let pushed := range.filterMap fun e => e.2.bind (derefNode s.ctxact)
  let ctxact2 := eraseAll s.ctxact range
  ( { pfds := p0 :: keep.map Prod.fst
    , ctxitr := it0 :: keep.map Prod.snd
    , ctxact := ctxact2 }
  , Event.lock :: pushed.map Event.pushCtx ++ [Event.unlock])

/-- Outcome of one poll_fds call: the returned-events it writes into the
records (index-aligned with `_m_pfds`), its return value and whether it set
the error code. -/
structure PollOutcome where
  revents : List Int
  ret : Int
  err : Bool
deriving DecidableEq, Repr

/-- poll_fds writing the returned events into the descriptor records. -/
def applyPoll : List Pollfd → List Int → List Pollfd
  | [], _ => []
  | ps, [] => ps
  | p :: ps, r :: rs => { p with revents := r } :: applyPoll ps rs

/-- One iteration of the body of async_io_thread::exec: poll fills the
returned events; if no error was reported and the return value is positive,
std::partition the zipped range [begin+1, end) by check_event (entries with
non-zero returned events first; the pipe entry at index 0 is never moved) and,
if the partition point differs from the end, hand the final segment
[itr, end) - the entries that do NOT satisfy check_event - to
restore_and_erase. -/
def execIter (s : ReactorState) (o : PollOutcome) : ReactorState × List Event :=
  let pfds2 := applyPoll s.pfds o.revents
  if !o.err && decide (0 < o.ret) then
    match pfds2, s.ctxitr with
    | p0 :: ptail, it0 :: itail =>
      let parts := stdPartition check_event (ptail.zip itail)
      if parts.2.isEmpty then
        ({ s with pfds := pfds2 }, [])
      else
        restore_and_erase { s with pfds := pfds2 } p0 it0 parts.1 parts.2
    | _, _ => ({ s with pfds := pfds2 }, [])
  else
    ({ s with pfds := pfds2 }, [])

/-- async_io_thread::exec: `while (true) { poll; handle readiness }`. The
translated loop body contains no break, no return and no check of a terminate
flag (the source marks the spot with "TODO: check terminate flag"), so the
recursion has no exiting branch: `some` would mean the loop exited, and the
fuel counter bounds how many iterations are examined. -/
def execLoop (polls : Nat → PollOutcome) : Nat → Nat → ReactorState → Option ReactorState
  | 0, _, _ => none
  | fuel + 1, k, s => execLoop polls fuel (k + 1) (execIter s (polls k)).1

/-- async_io_thread::~async_io_thread closes the pipe read end and then joins
the reactor thread; the join returns exactly when exec's loop exits after some
finite number of iterations, whatever outcomes the poll calls deliver
(closing the read end can only influence those outcomes). -/
def async_dtor_join_returns (polls : Nat → PollOutcome) (s : ReactorState) : Prop :=
  ∃ fuel, (execLoop polls fuel 0 s).isSome

/-- async_io_thread::async_io_thread: pushes the pollfd of the self-pipe read
end (events = polling_events::in) into `_m_pfds` and one default-constructed
singular iterator into `_m_ctxitr`; `_m_ctxact` is left empty. The
BOOST_ASSERT checks only that `_m_pfds` and `_m_ctxitr` have size 1. -/
def async_io_ctor (pipeReadFd : Int) : ReactorState :=
  { pfds := [{ fd := pipeReadFd, events := polling_events_in, revents := 0 }]
  , ctxitr := [none]
  , ctxact := [] }

/-- Modelled from the spec: the registration path (spec section 4.2) is not in
src/, only its contract is stated there. Under the scheduler lock, append the
descriptor record to `_m_pfds`, insert a fresh node holding the suspending
context into `_m_ctxact`, and append an iterator to that node to
`_m_ctxitr`. -/
def register_fd (s : ReactorState) (rec : Pollfd) (n : NodeId) (c : Ctx) : ReactorState :=
  { pfds := s.pfds ++ [rec]
  , ctxitr := s.ctxitr ++ [some n]
  , ctxact := s.ctxact ++ [(n, c)] }

/-- The alignment invariant the reactor state actually maintains: `_m_pfds`
and `_m_ctxitr` have equal length and `_m_ctxact` exactly one element fewer;
index 0 of `_m_pfds` holds the self-pipe read end and index 0 of `_m_ctxitr`
the never-dereferenced singular iterator; every later iterator points to a
live node of the parked list, those targets are pairwise distinct, and the
node ids of the parked list are distinct. -/
structure AlignedInv (pipeReadFd : Int) (s : ReactorState) : Prop where
  len_itr : s.pfds.length = s.ctxitr.length
  len_act : s.ctxact.length + 1 = s.pfds.length
  head_pfd : s.pfds.head?.map Pollfd.fd = some pipeReadFd
  head_itr : s.ctxitr.head? = some none
  tail_valid : ∀ it ∈ s.ctxitr.tail, ∃ n, it = some n ∧ n ∈ s.ctxact.map Prod.fst
  tail_nodup : (s.ctxitr.tail.filterMap id).Nodup
  act_nodup : (s.ctxact.map Prod.fst).Nodup

/-- Primitive steps a stackful user-thread context can still perform: suspend
back to the caller, or run a functor over the observation state. -/
inductive CtxOp (α : Type)
  | suspend : CtxOp α
  | run (f : α → α) : CtxOp α

/-- A user-thread context: its identity and the remaining program of its
stackful computation; an empty program means the functor returned, i.e. the
context is finished. -/
structure UserCtx (α : Type) where
  cid : Ctx
  prog : List (CtxOp α)

/-- Semantics of handing control to a context (context_type::start and
context_type::resume): execute the remaining ops until the context suspends or
its program ends; returns the remaining program and the updated observation
state. -/
def runUntilSuspend {α : Type} : List (CtxOp α) → α → List (CtxOp α) × α
  | [], a => ([], a)
  | CtxOp.suspend :: rest, a => (rest, a)
  | CtxOp.run f :: rest, a => runUntilSuspend rest (f a)

/-- scheduler::context_starter::operator(): suspend back to the caller
immediately, then invoke the wrapped functor. -/
def context_starter {α : Type} (f : α → α) : List (CtxOp α) :=
  [CtxOp.suspend, CtxOp.run f]

/-- scheduler state: `_m_terminate`, `_m_join`, the strategy pool `_m_users`
and the worker table `_m_kernels` (thread ids of the spawned workers, in spawn
order). -/
structure SchedState (α : Type) where
  terminate : Bool
  join : Bool
  users : List (UserCtx α)
  kernels : List Nat

/-- scheduler::joinable: under the lock, `_m_users.size() != 0`. -/
def joinable {α : Type} (s : SchedState α) : Bool :=
  s.users.length != 0

/-- Modelled from the spec: strategy_traits::push_ctx (spec section 4.3, the
strategy sources are not in src/) inserts the context into the runnable pool;
FIFO append is the documented order choice. -/
def push_ctx {α : Type} (pool : List (UserCtx α)) (u : UserCtx α) : List (UserCtx α) :=
  pool ++ [u]

/-- Modelled from the spec: strategy_traits::pop_ctx (spec section 4.3)
removes and returns the next-to-run context; with the FIFO choice this is the
head. Empty pools are a precondition violation, giving `none`. -/
def pop_ctx {α : Type} (pool : List (UserCtx α)) :
    Option (UserCtx α × List (UserCtx α)) :=
  match pool with
  | [] => none
  | u :: rest => some (u, rest)

/-- scheduler::start_context: a BOOST_SCOPE_EXIT block resets the thread-local
current-context slot to null; the slot is set to the context just before
ctx.start(), so the started body observes it, and the scope exit clears it on
the normal as well as on the exceptional return path (`Except.error` models a
throwing start). Returns the final slot value alongside the result. -/
def start_context {ε β : Type} (c : Ctx) (body : Option Ctx → Except ε β) :
    Option Ctx × Except ε β :=
  match body (some c) with
  | Except.ok b => (none, Except.ok b)
  | Except.error e => (none, Except.error e)

/-- The resume block of scheduler::_m_exec (the unique_unlock scope): the
BOOST_SCOPE_EXIT block clears the thread-local current-context slot on every
exit path; the slot is set to the popped context just before ctx.resume(), so
the resumed body observes it. -/
def resume_block {ε β : Type} (c : Ctx) (body : Option Ctx → Except ε β) :
    Option Ctx × Except ε β :=
  match body (some c) with
  | Except.ok b => (none, Except.ok b)
  | Except.error e => (none, Except.error e)

/-- scheduler::add_thread(size, fn, args...): build the functor, construct a
context whose program is context_starter over it, start_context it (the TLS
slot is set around the start, which runs the starter up to its immediate
suspend), then under the lock push the primed context into the pool with
strategy push_ctx and notify exactly one waiter. Returns the new state, the
observation state after the start, and the event trace. -/
def add_thread {α : Type} (s : SchedState α) (cid : Ctx) (f : α → α) (a : α) :
    SchedState α × α × List Event :=
  let started := runUntilSuspend (context_starter f) a
  ( { s with users := push_ctx s.users ⟨cid, started.1⟩ }
  , started.2
  , [Event.setTLS cid, Event.startCtx cid, Event.clearTLS,
     Event.lock, Event.pushCtx cid, Event.notifyOne, Event.unlock])

/-- One iteration of the worker loop scheduler::_m_exec past the
condition-variable wait, which requires `_m_terminate` false and a non-empty
pool. The context_guard pops one context under the lock; the unique_unlock
scope releases the lock, sets the TLS slot, resumes the context and clears the
slot; back under the lock, when the context did not finish, the worker
notifies all waiters if `_m_join` is set and one otherwise, and the guard
pushes the context back into the pool. An empty pool is unreachable here and
left unchanged. -/
def workerIter {α : Type} (s : SchedState α) (a : α) : SchedState α × α × List Event :=
  match pop_ctx s.users with
  | none => (s, a, [])
  | some (u, rest) =>
    let r := runUntilSuspend u.prog a
    let pre := [Event.lock, Event.popCtx u.cid, Event.unlock,
                Event.setTLS u.cid, Event.resumeCtx u.cid, Event.clearTLS, Event.lock]
    if r.1.isEmpty then
      ({ s with users := rest }, r.2, pre ++ [Event.unlock])
    else
      ( { s with users := push_ctx rest ⟨u.cid, r.1⟩ }
      , r.2
      , pre ++ [(if s.join then Event.notifyAll else Event.notifyOne),
                Event.pushCtx u.cid, Event.unlock])

/-- The wait/renotify loop of scheduler::join_all: `obs` supplies the pool
contents observed at each wake from `_m_cond.wait(guard)`; the loop exits when
the pool is seen empty, and blocks forever (`none`) when the wakes are
exhausted while the pool is still non-empty. Each wake is followed by one
notify_one. -/
def join_all_loop {α : Type} (obs : List (List (UserCtx α)))
    (pool : List (UserCtx α)) : Option (List (UserCtx α) × List Event) :=
  if pool.isEmpty then some (pool, [])
  else
    match obs with
    | [] => none
    | p :: rest =>
      (join_all_loop rest p).map fun r =>
        (r.1, Event.waitCV :: Event.notifyOne :: r.2)

/-- scheduler::join_all: under the lock set `_m_join`, then while the pool is
non-empty wait on the condition variable and notify one waiter after each
wake; clear `_m_join` on exit. -/
def join_all {α : Type} (s : SchedState α) (obs : List (List (UserCtx α))) :
    Option (SchedState α × List Event) :=
  (join_all_loop obs s.users).map fun r =>
    ( { s with users := r.1, join := false }
    , Event.lock :: Event.setJoinFlag true ::
        (r.2 ++ [Event.setJoinFlag false, Event.unlock]))

/-- scheduler::~scheduler: std::terminate - the abort demanded for destroying
a joinable scheduler, modelled as `none` - when joinable() is true; otherwise
under the lock set `_m_terminate` and notify_all, then join every worker
recorded in `_m_kernels`. -/
def scheduler_dtor {α : Type} (s : SchedState α) : Option (SchedState α × List Event) :=
  if joinable s then none
  else some
    ( { s with terminate := true }
    , [Event.lock, Event.setTerminateFlag, Event.notifyAll, Event.unlock]
        ++ s.kernels.map Event.joinWorker)

/-- Worker-table emplace: `_m_kernels.emplace(th.get_id(), move(th))` keyed by
the spawned thread id; BOOST_ASSERT(r.second) demands the key be fresh, a
failed assertion is `none`. -/
def kernels_emplace (m : List Nat) (k : Nat) : Option (List Nat) :=
  if m.contains k then none else some (m ++ [k])

/-- scheduler::scheduler(default_size): `while (default_size--)` spawns one
worker per count and emplaces each into `_m_kernels` keyed by its thread id;
distinct OS thread ids are modelled as 0, 1, ... in spawn order. Both flags
start false and the pool empty. -/
def scheduler_ctor (α : Type) (n : Nat) : Option (SchedState α) :=
  ((List.range n).foldlM kernels_emplace []).map fun ks =>
    { terminate := false, join := false, users := [], kernels := ks }

/-- Condition-variable notifications. -/
def isNotify : Event → Bool
  | Event.notifyOne => true
  | Event.notifyAll => true
  | _ => false

/-- Writes of the thread-local current-context slot. -/
def isTLSWrite : Event → Bool
  | Event.setTLS _ => true
  | Event.clearTLS => true
  | _ => false

/-- The notifications contained in a trace. -/
def notifies (tr : List Event) : List Event :=
  tr.filter isNotify

/-- A reactor state for concrete evaluation: context 101 parked on fd 5 and
context 102 parked on fd 6 behind the pipe entry at index 0. -/
def c1_state : ReactorState :=
  { pfds := [ { fd := 3, events := polling_events_in, revents := 0 }
            , { fd := 5, events := polling_events_in, revents := 0 }
            , { fd := 6, events := polling_events_in, revents := 0 } ]
  , ctxitr := [none, some 1, some 2]
  , ctxact := [(1, 101), (2, 102)] }

/-- A poll outcome marking fd 5 ready (revents 1) and fd 6 not ready. -/
def c1_poll : PollOutcome := { revents := [0, 1, 0], ret := 1, err := false }

/-- A reactor state with a single parked context 202 on fd 7. -/
def c4_state : ReactorState :=
  { pfds := [ { fd := 3, events := polling_events_in, revents := 0 }
            , { fd := 7, events := polling_events_in, revents := 0 } ]
  , ctxitr := [none, some 1]
  , ctxact := [(1, 202)] }

/-- A poll outcome where only the pipe entry reports events. -/
def c4_poll : PollOutcome := { revents := [1, 0], ret := 1, err := false }

lemma applyPoll_map_fd (ps : List Pollfd) : ∀ (rs : List Int),
    (applyPoll ps rs).map Pollfd.fd = ps.map Pollfd.fd := by
  induction ps with
  | nil => intro rs; cases rs <;> rfl
  | cons p ps ih =>
    intro rs
    cases rs with
    | nil => rfl
    | cons r rs => simp [applyPoll, ih]

lemma applyPoll_length (ps : List Pollfd) (rs : List Int) :
    (applyPoll ps rs).length = ps.length := by
  have h := congrArg List.length (applyPoll_map_fd ps rs)
  simpa using h

lemma applyPoll_head_fd (ps : List Pollfd) (rs : List Int) :
    (applyPoll ps rs).head?.map Pollfd.fd = ps.head?.map Pollfd.fd := by
  rw [← List.head?_map, applyPoll_map_fd, List.head?_map]

lemma eraseNode_map_fst (n : NodeId) (l : List (NodeId × Ctx)) :
    (eraseNode l n).map Prod.fst = (l.map Prod.fst).erase n := by
  induction l with
  | nil => rfl
  | cons e t ih =>
    simp only [eraseNode, List.eraseP_cons, List.map_cons, List.erase_cons]
    by_cases h : e.1 == n
    · simp [h]
    · simp only [h, cond_false, if_neg (by simpa using h), List.map_cons]
      rw [← ih]
      rfl

lemma eraseAll_aligned : ∀ (range : List (Pollfd × Option NodeId))
    (A : List (NodeId × Ctx)),
    (A.map Prod.fst).Nodup →
    ((range.map Prod.snd).filterMap id).Nodup →
    (∀ m ∈ range, ∃ n, m.2 = some n ∧ n ∈ A.map Prod.fst) →
    ((eraseAll A range).map Prod.fst).Nodup ∧
    (eraseAll A range).length + range.length = A.length ∧
    (∀ k ∈ A.map Prod.fst, (∀ m ∈ range, m.2 ≠ some k) →
      k ∈ (eraseAll A range).map Prod.fst) := by
  intro range
  induction range with
  | nil =>
    intro A hA _ _
    exact ⟨hA, rfl, fun k hk _ => hk⟩
  | cons e rest ih =>
    intro A hA hnd hval
    obtain ⟨n, hn, hmem⟩ := hval e (by simp)
    have hstep : eraseAll A (e :: rest) = eraseAll (eraseNode A n) rest := by
      simp [eraseAll, hn]
    have hids : (eraseNode A n).map Prod.fst = (A.map Prod.fst).erase n :=
      eraseNode_map_fst n A
    have hA1 : ((eraseNode A n).map Prod.fst).Nodup := by
      rw [hids]; exact hA.erase n
    have hlenpos : 0 < A.length := by
      have h0 : 0 < (A.map Prod.fst).length := List.length_pos_of_mem hmem
      simpa using h0
    have hlen1 : (eraseNode A n).length + 1 = A.length := by
      have h1 : ((A.map Prod.fst).erase n).length = (A.map Prod.fst).length - 1 :=
        List.length_erase_of_mem hmem
      have h2 : (eraseNode A n).length = ((eraseNode A n).map Prod.fst).length := by simp
      rw [h2, hids, h1]
      simp only [List.length_map]
      omega
    have hnd2 : ((e.2 :: rest.map Prod.snd).filterMap id).Nodup := by
      simpa using hnd
    rw [hn] at hnd2
    simp only [List.filterMap_cons, id] at hnd2
    have hnotin : n ∉ (rest.map Prod.snd).filterMap id := by
      have := hnd2
      simp only [List.nodup_cons] at this
      exact this.1
    have hndrest : ((rest.map Prod.snd).filterMap id).Nodup := by
      have := hnd2
      simp only [List.nodup_cons] at this
      exact this.2
    have hval2 : ∀ m ∈ rest, ∃ n2, m.2 = some n2 ∧ n2 ∈ (eraseNode A n).map Prod.fst := by
      intro m hm
      obtain ⟨n2, hn2, hmem2⟩ := hval m (by simp [hm])
      refine ⟨n2, hn2, ?_⟩
      have hne : n2 ≠ n := by
        intro hc
        apply hnotin
        rw [← hc]
        simp only [List.mem_filterMap]
        exact ⟨m.2, List.mem_map_of_mem Prod.snd hm, by rw [hn2, hc]; rfl⟩
      rw [hids]
      exact (List.mem_erase_of_ne hne).mpr hmem2
    obtain ⟨i1, i2, i3⟩ := ih (eraseNode A n) hA1 hndrest hval2
    rw [hstep]
    refine ⟨i1, by simp only [List.length_cons]; omega, ?_⟩
    intro k hk hkex
    have hkn : k ≠ n := by
      intro hc
      exact hkex e (by simp) (by rw [hn, hc])
    apply i3
    · rw [hids]
      exact (List.mem_erase_of_ne hkn).mpr hk
    · intro m hm
      exact hkex m (by simp [hm])

lemma restore_and_erase_aligned (fd0 : Int) (s : ReactorState) (p0 : Pollfd)
    (zipped : List (Pollfd × Option NodeId))
    (hp0 : p0.fd = fd0)
    (hval : ∀ m ∈ zipped, ∃ n, m.2 = some n ∧ n ∈ s.ctxact.map Prod.fst)
    (hnd : ((zipped.map Prod.snd).filterMap id).Nodup)
    (hact : (s.ctxact.map Prod.fst).Nodup)
    (hlen : s.ctxact.length = zipped.length) :
    AlignedInv fd0 (restore_and_erase s p0 none
      (zipped.filter check_event) (zipped.filter fun x => !check_event x)).1 := by
  set keep := zipped.filter check_event with hkeep
  set range := zipped.filter (fun x => !check_event x) with hrange
  have hperm : (keep ++ range).Perm zipped := List.filter_append_perm check_event zipped
  have hpermIds :
      (((keep ++ range).map Prod.snd).filterMap id).Perm
        ((zipped.map Prod.snd).filterMap id) :=
    List.Perm.filterMap id (hperm.map Prod.snd)
  have hndKR : (((keep ++ range).map Prod.snd).filterMap id).Nodup :=
    hpermIds.symm.nodup hnd
  rw [List.map_append, List.filterMap_append] at hndKR
  obtain ⟨ndK, ndR, disj⟩ := List.nodup_append.mp hndKR
  have hvalR : ∀ m ∈ range, ∃ n, m.2 = some n ∧ n ∈ s.ctxact.map Prod.fst :=
    fun m hm => hval m (List.mem_of_mem_filter hm)
  obtain ⟨e1, e2, e3⟩ := eraseAll_aligned range s.ctxact hact ndR hvalR
  have hlensum : keep.length + range.length = zipped.length := by
    have := hperm.length_eq
    simpa using this
  refine ⟨?_, ?_, ?_, ?_, ?_, ?_, ?_⟩
  · simp [restore_and_erase]
  · simp only [restore_and_erase, List.length_cons, List.length_map]
    omega
  · simp [restore_and_erase, hp0]
  · simp [restore_and_erase]
  · intro it hit
    simp only [restore_and_erase, List.tail_cons] at hit
    obtain ⟨m, hm, hms⟩ := List.mem_map.mp hit
    obtain ⟨n, hn, hmemA⟩ := hval m (List.mem_of_mem_filter hm)
    refine ⟨n, by rw [← hms, hn], ?_⟩
    have hnK : n ∈ (keep.map Prod.snd).filterMap id := by
      simp only [List.mem_filterMap]
      exact ⟨m.2, List.mem_map_of_mem Prod.snd hm, by rw [hn]; rfl⟩
    have hnotR : ∀ m2 ∈ range, m2.2 ≠ some n := by
      intro m2 hm2 hc
      have hnR : n ∈ (range.map Prod.snd).filterMap id := by
        simp only [List.mem_filterMap]
        exact ⟨m2.2, List.mem_map_of_mem Prod.snd hm2, by rw [hc]; rfl⟩
      exact disj hnK hnR
    simpa [restore_and_erase] using e3 n hmemA hnotR
  · simpa [restore_and_erase] using ndK
  · simpa [restore_and_erase] using e1

lemma ctor_aligned (fd0 : Int) : AlignedInv fd0 (async_io_ctor fd0) := by
  refine ⟨rfl, rfl, rfl, rfl, ?_, ?_, ?_⟩ <;> simp [async_io_ctor]

lemma register_fd_aligned (fd0 : Int) (s : ReactorState) (rec : Pollfd)
    (n : NodeId) (c : Ctx) (h : AlignedInv fd0 s)
    (hfresh : n ∉ s.ctxact.map Prod.fst) :
    AlignedInv fd0 (register_fd s rec n c) := by
  obtain ⟨h1, h2, h3, h4, h5, h6, h7⟩ := h
  obtain ⟨it0, itail, hitr⟩ : ∃ it0 itail, s.ctxitr = it0 :: itail := by
    cases hc : s.ctxitr with
    | nil => rw [hc] at h4; exact absurd h4 (by simp)
    | cons a t => exact ⟨a, t, rfl⟩
  have hit0 : it0 = none := by
    rw [hitr] at h4
    simpa using h4
  obtain ⟨p0, ptail, hpf⟩ : ∃ p0 ptail, s.pfds = p0 :: ptail := by
    cases hc : s.pfds with
    | nil => rw [hc] at h3; exact absurd h3 (by simp)
    | cons a t => exact ⟨a, t, rfl⟩
  have htailsub : ∀ x ∈ itail.filterMap id, x ∈ s.ctxact.map Prod.fst := by
    intro x hx
    simp only [List.mem_filterMap, id] at hx
    obtain ⟨a, ha, hax⟩ := hx
    obtain ⟨n2, hn2, hmem2⟩ := h5 a (by rw [hitr]; simpa using ha)
    rw [hn2] at hax
    cases hax
    exact hmem2
  refine ⟨?_, ?_, ?_, ?_, ?_, ?_, ?_⟩
  · simp only [register_fd, List.length_append]
    simpa using h1
  · simp only [register_fd, List.length_append]
    simp only [List.length_singleton]
    omega
  · simp only [register_fd, hpf, List.cons_append, List.head?_cons]
    rw [hpf] at h3
    simpa using h3
  · simp [register_fd, hitr, hit0]
  · intro it hit
    simp only [register_fd, hitr, List.cons_append, List.tail_cons] at hit
    rcases List.mem_append.mp hit with hold | hnew
    · obtain ⟨n2, hn2, hmem2⟩ := h5 it (by rw [hitr]; simpa using hold)
      exact ⟨n2, hn2, by simp [register_fd, hmem2]⟩
    · have : it = some n := by simpa using hnew
      exact ⟨n, this, by simp [register_fd]⟩
  · simp only [register_fd, hitr, List.cons_append, List.tail_cons,
      List.filterMap_append]
    rw [List.nodup_append]
    refine ⟨?_, by simp, ?_⟩
    · rw [hitr] at h6
      simpa using h6
    · intro x hx hx2
      have hxn : x = n := by simpa using hx2
      exact hfresh (by rw [← hxn]; exact htailsub x hx)
  · simp only [register_fd, List.map_append]
    rw [List.nodup_append]
    exact ⟨h7, by simp, by intro x hx hx2; exact hfresh (by simpa [← show x = n by simpa using hx2] using hx)⟩

lemma execIter_aligned (fd0 : Int) (s : ReactorState) (o : PollOutcome)
    (h : AlignedInv fd0 s) : AlignedInv fd0 (execIter s o).1 := by
  obtain ⟨h1, h2, h3, h4, h5, h6, h7⟩ := h
  have hgen : AlignedInv fd0 { s with pfds := applyPoll s.pfds o.revents } := by
    refine ⟨?_, ?_, ?_, h4, h5, h6, h7⟩
    · simpa [applyPoll_length] using h1
    · simpa [applyPoll_length] using h2
    · simpa [applyPoll_head_fd] using h3
  simp only [execIter]
  split
  · split
    next p0 ptail it0 itail heq heq2 =>
      have hit0 : it0 = none := by
        rw [heq2] at h4
        simpa using h4
      have hlen2 : ptail.length = itail.length := by
        have hl : (applyPoll s.pfds o.revents).length = s.ctxitr.length := by
          rw [applyPoll_length]; exact h1
        rw [heq, heq2] at hl
        simpa using hl
      have hsnd : (ptail.zip itail).map Prod.snd = itail :=
        List.map_snd_zip ptail itail (le_of_eq hlen2.symm)
      have htail : s.ctxitr.tail = itail := by rw [heq2]; rfl
      split
      · exact (by simpa [heq] using hgen)
      · simp only [stdPartition, hit0]
        apply restore_and_erase_aligned
        · have hfd : (applyPoll s.pfds o.revents).head?.map Pollfd.fd = some fd0 := by
            rw [applyPoll_head_fd]; exact h3
          rw [heq] at hfd
          simpa using hfd
        · intro m hm
          have hms : m.2 ∈ itail := by
            rw [← hsnd]
            exact List.mem_map_of_mem Prod.snd hm
          exact h5 m.2 (by rw [htail]; exact hms)
        · rw [hsnd, ← htail]
          exact h6
        · exact h7
        · have hz : (ptail.zip itail).length = ptail.length := by
            rw [List.length_zip, hlen2]
            simp
          have hp : (applyPoll s.pfds o.revents).length = s.pfds.length :=
            applyPoll_length s.pfds o.revents
          rw [heq] at hp
          simp only [List.length_cons] at hp
          show s.ctxact.length = (ptail.zip itail).length
          omega
    next => exact hgen
  · exact hgen

lemma execLoop_eq_none (polls : Nat → PollOutcome) :
    ∀ (fuel k : Nat) (s : ReactorState), execLoop polls fuel k s = none := by
  intro fuel
  induction fuel with
  | zero => intro k s; rfl
  | succ m ih => intro k s; simpa [execLoop] using ih (k + 1) (execIter s (polls k)).1

lemma notifies_pushes (l : List Ctx) :
    notifies (Event.lock :: (l.map Event.pushCtx ++ [Event.unlock])) = [] := by
  induction l with
  | nil => rfl
  | cons c t ih =>
    have h : isNotify (Event.pushCtx c) = false := rfl
    have hl : isNotify Event.lock = false := rfl
    simp only [notifies, List.map_cons, List.cons_append, List.filter_cons, h, hl] at ih ⊢
    simpa using ih

lemma notifies_joins (ks : List Nat) :
    notifies (ks.map Event.joinWorker) = [] := by
  induction ks with
  | nil => rfl
  | cons k t ih =>
    have h : isNotify (Event.joinWorker k) = false := rfl
    simp only [notifies, List.map_cons, List.filter_cons, h] at ih ⊢
    simpa using ih

lemma join_all_loop_spec {α : Type} :
    ∀ (obs : List (List (UserCtx α))) (pool : List (UserCtx α))
      (r : List (UserCtx α) × List Event),
      join_all_loop obs pool = some r →
      r.1 = [] ∧ ∃ k, r.2 = (List.replicate k [Event.waitCV, Event.notifyOne]).flatten := by
  intro obs
  induction obs with
  | nil =>
    intro pool r h
    by_cases hp : pool.isEmpty
    · rw [join_all_loop, if_pos hp] at h
      cases h
      exact ⟨List.isEmpty_iff.mp hp, 0, rfl⟩
    · rw [join_all_loop, if_neg hp] at h
      cases h
  | cons p rest ih =>
    intro pool r h
    by_cases hp : pool.isEmpty
    · rw [join_all_loop, if_pos hp] at h
      cases h
      exact ⟨List.isEmpty_iff.mp hp, 0, rfl⟩
    · rw [join_all_loop, if_neg hp] at h
      simp only [Option.map_eq_some'] at h
      obtain ⟨r0, hr0, hr⟩ := h
      obtain ⟨h1, k, h2⟩ := ih p r0 hr0
      refine ⟨by rw [← hr]; exact h1, k + 1, ?_⟩
      rw [← hr]
      simp only [List.replicate_succ, List.flatten_cons, h2]
      rfl

lemma replicate_wait_notify (k : Nat) :
    notifies (List.replicate k [Event.waitCV, Event.notifyOne]).flatten =
      List.replicate k Event.notifyOne ∧
    ((List.replicate k [Event.waitCV, Event.notifyOne]).flatten).count Event.waitCV = k := by
  induction k with
  | zero => exact ⟨rfl, rfl⟩
  | succ m ih =>
    obtain ⟨ih1, ih2⟩ := ih
    have hstep : (List.replicate (m + 1) [Event.waitCV, Event.notifyOne]).flatten
        = Event.waitCV :: Event.notifyOne ::
            (List.replicate m [Event.waitCV, Event.notifyOne]).flatten := by
      simp [List.replicate_succ]
    have h1 : isNotify Event.waitCV = false := rfl
    have h2 : isNotify Event.notifyOne = true := rfl
    constructor
    · rw [hstep]
      simp only [notifies, List.filter_cons, h1, h2] at ih1 ⊢
      simp [ih1, List.replicate_succ]
    · rw [hstep]
      simp [List.count_cons, ih2]

lemma ctor_fold : ∀ (l : List Nat) (m : List Nat), (m ++ l).Nodup →
    List.foldlM kernels_emplace m l = some (m ++ l) := by
  intro l
  induction l with
  | nil => intro m _; simp
  | cons k t ih =>
    intro m hnd
    have hk : k ∉ m := by
      intro hc
      rw [List.nodup_append] at hnd
      exact hnd.2.2 hc (by simp)
    have hstep : kernels_emplace m k = some (m ++ [k]) := by
      simp [kernels_emplace, hk]
    have hnd2 : ((m ++ [k]) ++ t).Nodup := by
      simpa using hnd
    calc List.foldlM kernels_emplace m (k :: t)
        = kernels_emplace m k >>= fun m2 => List.foldlM kernels_emplace m2 t := by
          simp [List.foldlM]
      _ = List.foldlM kernels_emplace (m ++ [k]) t := by rw [hstep]; rfl
      _ = some ((m ++ [k]) ++ t) := ih (m ++ [k]) hnd2
      _ = some (m ++ k :: t) := by simp

/-- Claim C1: the spec says that after the ready-first partition the reactor
pushes into the runnable pool exactly the parked contexts whose returned
events are non-zero and erases exactly those ready entries. Evaluating the
embedded loop body at a poll that marks fd 5 ready (revents 1) and fd 6 not
ready (revents 0) shows the code doing the opposite: restore_and_erase is
handed [itr, end), the entries FAILING check_event, so the not-ready context
102 is pushed and erased while the ready context 101 stays parked. This
matches the code_bug record for the claim. -/
theorem c1_reactor_restores_unready_entries :
    execIter c1_state c1_poll =
      ( { pfds := [ { fd := 3, events := polling_events_in, revents := 0 }
                  , { fd := 5, events := polling_events_in, revents := 1 } ]
        , ctxitr := [none, some 1]
        , ctxact := [(1, 101)] }
      , [Event.lock, Event.pushCtx 102, Event.unlock]) := by
  decide

/-- Claim C3: the spec demands that, once the destructor closes the pipe read
end, the reactor observes a shutdown signal and exits its loop so that the
join in the destructor returns. The loop body of async_io_thread::exec has no
break, no return and no terminate check (the source says "TODO: check
terminate flag"), so the embedded loop never reaches an exit for any poll
outcomes - including the outcomes a closed pipe produces - and for any number
of iterations: the destructor-side join never returns. -/
theorem c3_exec_loop_never_exits (polls : Nat → PollOutcome) (fuel k : Nat)
    (s : ReactorState) : (execLoop polls fuel k s).isSome = false := by
  rw [execLoop_eq_none]
  rfl

/-- Claim C4 counterexample: the claim says the condition variable is
notified whenever a new context becomes runnable, re-enqueue by the reactor
included. At a concrete iteration the reactor pushes parked context 202 back
into the runnable pool, yet its whole trace contains no notification:
restore_and_erase never touches the condition variable. -/
theorem c4_reenqueue_without_notify :
    (execIter c4_state c4_poll).2 = [Event.lock, Event.pushCtx 202, Event.unlock] ∧
    notifies (execIter c4_state c4_poll).2 = [] := by
  constructor <;> decide

/-- Claim C4 (amended): the condition variable is notified exactly at these
points - add_thread notifies one waiter after pushing the primed context; the
destructor notifies all after setting termination; a worker whose resumed
context did not finish notifies all when the join flag is set and one
otherwise, and does not notify when the context finished; join_all notifies
one waiter after every wake of its drain loop, one notification per wait; and
the reactor re-enqueue path notifies nobody. -/
theorem c4_notify_discipline :
    (∀ (α : Type) (s : SchedState α) (cid : Ctx) (f : α → α) (a : α),
        notifies (add_thread s cid f a).2.2 = [Event.notifyOne]) ∧
    (∀ (α : Type) (s : SchedState α), s.users = [] →
        (scheduler_dtor s).map (fun r => notifies r.2) = some [Event.notifyAll]) ∧
    (∀ (α : Type) (s : SchedState α) (a : α) (u : UserCtx α)
        (rest : List (UserCtx α)), s.users = u :: rest →
        notifies (workerIter s a).2.2 =
          (if (runUntilSuspend u.prog a).1.isEmpty then []
           else [if s.join then Event.notifyAll else Event.notifyOne])) ∧
    (∀ (α : Type) (s : SchedState α) (obs : List (List (UserCtx α)))
        (out : SchedState α × List Event), join_all s obs = some out →
        ∃ k, notifies out.2 = List.replicate k Event.notifyOne ∧
          out.2.count Event.waitCV = k) ∧
    (∀ (s : ReactorState) (o : PollOutcome), notifies (execIter s o).2 = []) := by
  refine ⟨?_, ?_, ?_, ?_, ?_⟩
  · intro α s cid f a
    rfl
  · intro α s hu
    have hj : joinable s = false := by simp [joinable, hu]
    have h1 : isNotify Event.lock = false := rfl
    have h2 : isNotify Event.setTerminateFlag = false := rfl
    have h3 : isNotify Event.notifyAll = true := rfl
    have h4 : isNotify Event.unlock = false := rfl
    simp only [scheduler_dtor, hj, Bool.false_eq_true, if_false, Option.map_some,
      List.cons_append, List.nil_append]
    have hjo := notifies_joins s.kernels
    simp only [notifies] at hjo ⊢
    simp [List.filter_cons, h1, h2, h3, h4, hjo]
  · intro α s a u rest hu
    simp only [workerIter, pop_ctx, hu]
    by_cases hfin : (runUntilSuspend u.prog a).1.isEmpty
    · simp only [hfin, if_true]
      rfl
    · simp only [hfin, Bool.false_eq_true, if_false]
      by_cases hj : s.join
      · simp only [hj, if_true]
        rfl
      · simp only [hj, Bool.false_eq_true, if_false]
        rfl
  · intro α s obs out h
    simp only [join_all, Option.map_eq_some'] at h
    obtain ⟨r, hr, hout⟩ := h
    obtain ⟨-, k, hshape⟩ := join_all_loop_spec obs s.users r hr
    refine ⟨k, ?_, ?_⟩
    · rw [← hout]
      simp only [notifies, List.filter_cons, List.filter_append]
      have h1 : isNotify Event.lock = false := rfl
      have h2 : isNotify (Event.setJoinFlag true) = false := rfl
      have h3 : isNotify (Event.setJoinFlag false) = false := rfl
      have h4 : isNotify Event.unlock = false := rfl
      simp only [h1, h2, h3, h4, if_false, Bool.false_eq_true]
      rw [hshape]
      have := (replicate_wait_notify k).1
      simp only [notifies] at this
      simp [this]
    · rw [← hout]
      simp only [List.count_cons, List.count_append, hshape]
      have := (replicate_wait_notify k).2
      simp [this]
  · intro s o
    simp only [execIter]
    split
    · split
      next p0 ptail it0 itail heq heq2 =>
        split
        · rfl
        · simp only [restore_and_erase]
          exact notifies_pushes _
      next => rfl
    · rfl

/-- Claim C5: join_all, under the lock, sets the join flag, then while the
user pool is non-empty waits on the condition variable and notifies one
waiter after each wake, and clears the join flag on exit; when it returns the
user pool is empty, the join flag is false and joinable() is false. -/
theorem c5_join_all_drains :
    ∀ (α : Type) (s : SchedState α) (obs : List (List (UserCtx α)))
      (out : SchedState α × List Event), join_all s obs = some out →
      out.1.users = [] ∧ out.1.join = false ∧ joinable out.1 = false ∧
      out.1.terminate = s.terminate ∧ out.1.kernels = s.kernels ∧
      ∃ k, out.2 = Event.lock :: Event.setJoinFlag true ::
        ((List.replicate k [Event.waitCV, Event.notifyOne]).flatten ++
          [Event.setJoinFlag false, Event.unlock]) := by
  intro α s obs out h
  simp only [join_all, Option.map_eq_some'] at h
  obtain ⟨r, hr, hout⟩ := h
  obtain ⟨h1, k, h2⟩ := join_all_loop_spec obs s.users r hr
  subst hout
  refine ⟨h1, rfl, ?_, rfl, rfl, k, by rw [h2]⟩
  simp [joinable, h1]

/-- Claim C5 witness: a pool of one user context drained at the first wake. -/
theorem c5_join_all_drains_witness :
    (SchedState.mk false false ([] : List (UserCtx Nat)) []).users = [] ∧
    (SchedState.mk false false ([] : List (UserCtx Nat)) []).join = false ∧
    joinable (SchedState.mk false false ([] : List (UserCtx Nat)) []) = false ∧
    (SchedState.mk false false ([] : List (UserCtx Nat)) []).terminate = false ∧
    (SchedState.mk false false ([] : List (UserCtx Nat)) []).kernels = [] ∧
    ∃ k, ([Event.lock, Event.setJoinFlag true, Event.waitCV, Event.notifyOne,
          Event.setJoinFlag false, Event.unlock] : List Event) =
      Event.lock :: Event.setJoinFlag true ::
        ((List.replicate k [Event.waitCV, Event.notifyOne]).flatten ++
          [Event.setJoinFlag false, Event.unlock]) :=
  c5_join_all_drains Nat (SchedState.mk false false [UserCtx.mk 5 []] []) [[]]
    ( SchedState.mk false false [] []
    , [Event.lock, Event.setJoinFlag true, Event.waitCV, Event.notifyOne,
       Event.setJoinFlag false, Event.unlock]) rfl

/-- Claim C6: the destructor aborts the process - std::terminate, modelled as
`none` - exactly when joinable() is true, i.e. when at least one user thread
exists; otherwise it sets the termination flag under the lock, notifies all
waiters, and joins every worker recorded in the worker table. -/
theorem c6_dtor_abort_or_teardown :
    ∀ (α : Type) (s : SchedState α),
      (s.users ≠ [] → scheduler_dtor s = none) ∧
      (s.users = [] →
        scheduler_dtor s = some
          ( { s with terminate := true }
          , [Event.lock, Event.setTerminateFlag, Event.notifyAll, Event.unlock]
              ++ s.kernels.map Event.joinWorker)) := by
  intro α s
  constructor
  · intro h
    have hj : joinable s = true := by
      simp only [joinable, bne_iff_ne, ne_eq, List.length_eq_zero]
      exact h
    simp [scheduler_dtor, hj]
  · intro h
    have hj : joinable s = false := by
      simp [joinable, h]
    simp [scheduler_dtor, hj]

/-- Claim C6 witness: a state with one user aborts; a user-free state with
two workers tears down and joins both. -/
theorem c6_dtor_witness :
    scheduler_dtor (SchedState.mk false false [UserCtx.mk 3 ([] : List (CtxOp Nat))] []) = none ∧
    scheduler_dtor (SchedState.mk false false ([] : List (UserCtx Nat)) [0, 1]) = some
      ( SchedState.mk true false [] [0, 1]
      , [Event.lock, Event.setTerminateFlag, Event.notifyAll, Event.unlock,
         Event.joinWorker 0, Event.joinWorker 1]) :=
  ⟨(c6_dtor_abort_or_teardown Nat _).1 (by simp),
   (c6_dtor_abort_or_teardown Nat _).2 rfl⟩

/-- Claim C7: add_thread wraps the functor in context_starter, whose first
entry suspends immediately, leaving the functor unexecuted; the start happens
before the push, so the pool - all any worker can see - receives only the
already primed context (remaining program: run the functor); and after the
locked push exactly one waiter is notified. -/
theorem c7_add_thread_primes_then_pushes :
    ∀ (α : Type) (s : SchedState α) (cid : Ctx) (f : α → α) (a : α),
      runUntilSuspend (context_starter f) a = ([CtxOp.run f], a) ∧
      (add_thread s cid f a).1.users = s.users ++ [UserCtx.mk cid [CtxOp.run f]] ∧
      (add_thread s cid f a).2.1 = a ∧
      (add_thread s cid f a).2.2 =
        [Event.setTLS cid, Event.startCtx cid, Event.clearTLS,
         Event.lock, Event.pushCtx cid, Event.notifyOne, Event.unlock] ∧
      notifies (add_thread s cid f a).2.2 = [Event.notifyOne] := by
  intro α s cid f a
  exact ⟨rfl, rfl, rfl, rfl, rfl⟩

/-- Claim C9: the thread-local current-context slot is set to the context
immediately before every resume and before the initial start in add_thread -
the started or resumed body observes the slot holding exactly that context -
and the scope exit resets it to null on every exit path, the exceptional one
included; in the worker trace the slot writes bracket exactly the resume and
no other event of the iteration touches the slot. -/
theorem c9_tls_discipline :
    (∀ (ε β : Type) (c : Ctx) (body : Option Ctx → Except ε β),
      start_context c body = (none, body (some c))) ∧
    (∀ (ε β : Type) (c : Ctx) (body : Option Ctx → Except ε β),
      resume_block c body = (none, body (some c))) ∧
    (∀ (α : Type) (s : SchedState α) (a : α) (u : UserCtx α)
      (rest : List (UserCtx α)), s.users = u :: rest →
      ∃ post, (workerIter s a).2.2 =
          [Event.lock, Event.popCtx u.cid, Event.unlock] ++
            (Event.setTLS u.cid :: Event.resumeCtx u.cid :: Event.clearTLS :: post) ∧
        post.all (fun e => !isTLSWrite e) = true ∧
        ([Event.lock, Event.popCtx u.cid, Event.unlock].all
          (fun e => !isTLSWrite e)) = true) := by
  refine ⟨?_, ?_, ?_⟩
  · intro ε β c body
    cases h : body (some c) <;> simp [start_context, h]
  · intro ε β c body
    cases h : body (some c) <;> simp [resume_block, h]
  · intro α s a u rest hu
    simp only [workerIter, pop_ctx, hu]
    by_cases hfin : (runUntilSuspend u.prog a).1.isEmpty
    · exact ⟨[Event.lock, Event.unlock], by simp [hfin], rfl, rfl⟩
    · by_cases hj : s.join
      · exact ⟨[Event.lock, Event.notifyAll, Event.pushCtx u.cid, Event.unlock],
          by simp [hfin, hj], rfl, rfl⟩
      · exact ⟨[Event.lock, Event.notifyOne, Event.pushCtx u.cid, Event.unlock],
          by simp [hfin, hj], rfl, rfl⟩

/-- Claim C9 witness: the start with a throwing body still clears the slot,
and a concrete worker iteration brackets its resume with the slot writes. -/
theorem c9_tls_witness :
    start_context 3 (fun _ => (Except.error 0 : Except Nat Nat)) =
      (none, Except.error 0) ∧
    ∃ post,
      (workerIter (SchedState.mk false false
          [UserCtx.mk 4 ([] : List (CtxOp Nat))] []) 0).2.2 =
        [Event.lock, Event.popCtx 4, Event.unlock] ++
          (Event.setTLS 4 :: Event.resumeCtx 4 :: Event.clearTLS :: post) ∧
      post.all (fun e => !isTLSWrite e) = true ∧
      ([Event.lock, Event.popCtx 4, Event.unlock].all
        (fun e => !isTLSWrite e)) = true :=
  ⟨c9_tls_discipline.1 Nat Nat 3 (fun _ => Except.error 0),
   c9_tls_discipline.2.2 Nat (SchedState.mk false false [UserCtx.mk 4 []] []) 0
     (UserCtx.mk 4 []) [] rfl⟩

/-- Claim C10: for every worker count n, including the edge case n = 0, the
scheduler constructor completes normally - every emplace succeeds because
thread ids are distinct - spawning exactly n workers recorded in the worker
table keyed by their ids, with both flags false and an empty user pool; n = 0
yields an empty worker table. -/
theorem c10_ctor_spawns_n_workers :
    ∀ (α : Type) (n : Nat),
      scheduler_ctor α n =
        some { terminate := false, join := false, users := [],
               kernels := List.range n } ∧
      ((scheduler_ctor α n).map fun st => st.kernels.length) = some n ∧
      scheduler_ctor α 0 =
        some { terminate := false, join := false, users := [], kernels := [] } := by
  intro α n
  have hfold : List.foldlM kernels_emplace [] (List.range n) = some (List.range n) := by
    have h := ctor_fold (List.range n) []
    simpa using h (by simpa using List.nodup_range n)
  refine ⟨?_, ?_, rfl⟩
  · simp [scheduler_ctor, hfold]
  · simp [scheduler_ctor, hfold]

/-- Claim C8 counterexample: the claim asserts the three reactor structures
have equal length from construction on; at construction the descriptor vector
and the iterator vector hold the pipe entry while the parked list is empty,
so the lengths are 1, 1 and 0. -/
theorem c8_ctor_lengths_not_all_equal :
    ((async_io_ctor 3).pfds.length == (async_io_ctor 3).ctxact.length) = false ∧
    (async_io_ctor 3).pfds.length = 1 ∧
    (async_io_ctor 3).ctxitr.length = 1 ∧
    (async_io_ctor 3).ctxact.length = 0 := by
  decide

/-- Claim C8 (amended): at construction and after every registration and
every partition-and-erase iteration of the reactor loop, `_m_pfds` and
`_m_ctxitr` have equal length while `_m_ctxact` has exactly one element fewer;
index 0 holds the self-pipe read end and the never-dereferenced singular
iterator, and every later iterator points to a distinct live parked node. -/
theorem c8_aligned_invariant :
    (∀ fd0 : Int, AlignedInv fd0 (async_io_ctor fd0)) ∧
    (∀ (fd0 : Int) (s : ReactorState) (rec : Pollfd) (n : NodeId) (c : Ctx),
        AlignedInv fd0 s → n ∉ s.ctxact.map Prod.fst →
        AlignedInv fd0 (register_fd s rec n c)) ∧
    (∀ (fd0 : Int) (s : ReactorState) (o : PollOutcome),
        AlignedInv fd0 s → AlignedInv fd0 (execIter s o).1) :=
  ⟨ctor_aligned, register_fd_aligned, execIter_aligned⟩

/-- Claim C8 witness: the invariant after a registration on the freshly
constructed reactor followed by one loop iteration. -/
theorem c8_aligned_invariant_witness :
    AlignedInv 3 (execIter (register_fd (async_io_ctor 3)
        { fd := 9, events := polling_events_in, revents := 0 } 1 101)
      { revents := [1, 0], ret := 1, err := false }).1 :=
  c8_aligned_invariant.2.2 3 _ _
    (c8_aligned_invariant.2.1 3 _ _ 1 101 (c8_aligned_invariant.1 3) (by decide))

/-- Claim C4 witness: the destructor notification on a user-free state, a
worker iteration whose context finishes without notifying, and a join_all run
with one wake and one notify_one. -/
theorem c4_notify_witness :
    (scheduler_dtor (SchedState.mk false false ([] : List (UserCtx Nat)) [2])).map
        (fun r => notifies r.2) = some [Event.notifyAll] ∧
    notifies (workerIter (SchedState.mk false false
        [UserCtx.mk 7 ([] : List (CtxOp Nat))] []) 0).2.2 =
      (if (runUntilSuspend ([] : List (CtxOp Nat)) 0).1.isEmpty then []
       else [if false then Event.notifyAll else Event.notifyOne]) ∧
    ∃ k, notifies ([Event.lock, Event.setJoinFlag true, Event.waitCV,
          Event.notifyOne, Event.setJoinFlag false, Event.unlock] : List Event) =
        List.replicate k Event.notifyOne ∧
      ([Event.lock, Event.setJoinFlag true, Event.waitCV, Event.notifyOne,
        Event.setJoinFlag false, Event.unlock] : List Event).count Event.waitCV = k :=
  ⟨c4_notify_discipline.2.1 Nat (SchedState.mk false false [] [2]) rfl,
   c4_notify_discipline.2.2.1 Nat (SchedState.mk false false [UserCtx.mk 7 []] [])
     0 (UserCtx.mk 7 []) [] rfl,
   c4_notify_discipline.2.2.2.1 Nat (SchedState.mk false false [UserCtx.mk 7 []] [])
     [[]]
     ( SchedState.mk false false [] []
     , [Event.lock, Event.setJoinFlag true, Event.waitCV, Event.notifyOne,
        Event.setJoinFlag false, Event.unlock]) rfl⟩

end BoostMMM
